import Mathlib

/-!
Verification of the gmprime Lucas-Lehmer-Riesel primality tester
(h * 2 ^ n - 1 candidates) against its specification.

The definitions below are shallow embeddings of the C sources:
  - gmprime.c   : the driver main loop, the shift-and-add modular
                  reduction, the trivial prefilter and the final verdict;
  - lucas.c     : gen_v1, rodseth_xhn, gen_u2, gen_u0, fcnt;
  - the checkpoint module : checkpoint_needed, checkpoint (rotation,
                  record write, signal epilogue) and restore_checkpoint.

GMP big integers are embedded as Lean Int; the GMP division and
remainder flavors are mapped as follows:
  - mpz_fdiv_q_2exp  ->  Int.fdiv _ (2 ^ n)   (floor division)
  - mpz_fdiv_r_2exp  ->  Int.emod _ (2 ^ n)   (nonnegative remainder)
  - mpz_tdiv_qr_ui   ->  Int.tdiv / Int.tmod  (truncation toward zero)
  - mpz_mod          ->  Int.emod             (nonnegative remainder)
  - mpz_jacobi       ->  jacobiSym            (Mathlib Jacobi symbol)
-/

namespace Gmprime

/-! ## The shift-and-add modular engine of gmprime.c main -/

/-- Embedding of the defensive subtraction loop of gmprime.c
(while u_term >= riesel_cand, subtract riesel_cand).  The bound
1 <= N mirrors the fact that the loop terminates only for positive
moduli; in the program N = h * 2 ^ n - 1 >= 1 always holds there. -/
def modSubLoop (N : ℤ) (x : ℤ) : ℤ :=
  if _hc : 1 ≤ N ∧ N ≤ x then modSubLoop N (x - N) else x
termination_by x.toNat
decreasing_by omega

/-- Embedding of the shift-and-add reduction of gmprime.c main
(lines computing J, J_div_h, J_mod_h, K and the additive combination,
followed by the defensive subtraction loop), applied to an arbitrary
signed big integer t (in the program t = u ^ 2 - 2). -/
def mod_riesel (h n : ℕ) (t : ℤ) : ℤ :=
  let J : ℤ := Int.fdiv t (2 ^ n)
  let J_div_h : ℤ := Int.tdiv J (h : ℤ)
  let J_mod_h : ℤ := Int.tmod J (h : ℤ)
  let K : ℤ := t % 2 ^ n
  modSubLoop ((h : ℤ) * 2 ^ n - 1) (J_mod_h * 2 ^ n + K + J_div_h)

/-- One full iteration of the gmprime.c main loop on the Lucas term:
square, subtract 2, then reduce with the shift-and-add engine. -/
def modStep (h n : ℕ) (u : ℤ) : ℤ :=
  mod_riesel h n (u * u - 2)

/-- The gmprime.c main loop: while i < n, increment i and replace the
Lucas term u by modStep h n u.  Returns the final term U(n). -/
def driverLoop (h n : ℕ) (i : ℕ) (u : ℤ) : ℤ :=
  if i < n then driverLoop h n (i + 1) (modStep h n u) else u
termination_by n - i

/-- The stdout line printed by gmprime.c when the candidate is prime
(non-calc mode), formatted with the user-supplied original h and n. -/
def primeLine (origH origN : ℕ) : String :=
  toString origH ++ " * 2 ^ " ++ toString origN ++ " - 1 is prime\n"

/-- The stdout line printed by gmprime.c when the candidate is
composite (non-calc mode), with the user-supplied original h and n. -/
def compositeLine (origH origN : ℕ) : String :=
  toString origH ++ " * 2 ^ " ++ toString origN ++ " - 1 is composite\n"

/-- Embedding of the final verdict of gmprime.c main (non-calc mode):
if mpz_sgn(u_term) == 0 print the prime line and exit 0, otherwise
print the composite line and exit 1.  Returns (stdout line, exit code). -/
def finalReport (origH origN : ℕ) (u : ℤ) : String × ℕ :=
  if u = 0 then (primeLine origH origN, 0) else (compositeLine origH origN, 1)

/-- The verdict of a full run of the main loop from index 2 with first
term u2, as printed by gmprime.c with the original h and n. -/
def gmprimeVerdict (origH origN h n : ℕ) (u2 : ℤ) : String × ℕ :=
  finalReport origH origN (driverLoop h n 2 u2)

/-! ## Helper lemmas about the modular engine -/

/-- The subtraction loop only ever subtracts multiples of N. -/
lemma modSubLoop_modEq (N x : ℤ) : modSubLoop N x ≡ x [ZMOD N] := by
  rw [modSubLoop]
  split
  · calc modSubLoop N (x - N) ≡ x - N [ZMOD N] := modSubLoop_modEq N (x - N)
      _ ≡ x - 0 [ZMOD N] := by
        exact Int.ModEq.sub (Int.ModEq.refl x) (Int.modEq_zero_iff_dvd.mpr dvd_rfl)
      _ = x := by ring
  · rfl
termination_by x.toNat
decreasing_by omega

/-- If the loop starts at a nonnegative value and the modulus is
positive, the result lands in [0, N). -/
lemma modSubLoop_bounds (N x : ℤ) (hN : 1 ≤ N) (hx : 0 ≤ x) :
    0 ≤ modSubLoop N x ∧ modSubLoop N x < N := by
  rw [modSubLoop]
  split
  · exact modSubLoop_bounds N (x - N) hN (by omega)
  · constructor
    · exact hx
    · omega
termination_by x.toNat
decreasing_by omega

/-- If the loop starts below the modulus it returns its input. -/
lemma modSubLoop_of_lt (N x : ℤ) (hx : x < N) : modSubLoop N x = x := by
  rw [modSubLoop]
  split
  · omega
  · rfl

/-- The additive combination of the shift-and-add engine differs from
the input by the multiple (J tdiv h) * N of the modulus N. -/
lemma shift_add_identity (h n : ℕ) (t : ℤ) :
    Int.tmod (Int.fdiv t (2 ^ n)) (h : ℤ) * 2 ^ n + t % 2 ^ n
      + Int.tdiv (Int.fdiv t (2 ^ n)) (h : ℤ)
    = t - Int.tdiv (Int.fdiv t (2 ^ n)) (h : ℤ) * ((h : ℤ) * 2 ^ n - 1) := by
  have hpow : (0 : ℤ) ≤ 2 ^ n := by positivity
  have h1 : (2 : ℤ) ^ n * (t / 2 ^ n) + t % 2 ^ n = t := Int.ediv_add_emod t (2 ^ n)
  have hfd : Int.fdiv t (2 ^ n) = t / 2 ^ n := Int.fdiv_eq_ediv t hpow
  have h2 : (h : ℤ) * Int.tdiv (t / 2 ^ n) (h : ℤ) + Int.tmod (t / 2 ^ n) (h : ℤ)
      = t / 2 ^ n := Int.tdiv_add_tmod (t / 2 ^ n) (h : ℤ)
  rw [hfd]
  linear_combination h1 + (2 : ℤ) ^ n * h2

/-- The mod_riesel reduction is congruent to its input modulo N. -/
lemma mod_riesel_modEq (h n : ℕ) (t : ℤ) :
    mod_riesel h n t ≡ t [ZMOD ((h : ℤ) * 2 ^ n - 1)] := by
  unfold mod_riesel
  set N : ℤ := (h : ℤ) * 2 ^ n - 1 with hN
  set q : ℤ := Int.tdiv (Int.fdiv t (2 ^ n)) (h : ℤ) with hq
  calc modSubLoop N (Int.tmod (Int.fdiv t (2 ^ n)) (h : ℤ) * 2 ^ n + t % 2 ^ n + q)
      ≡ Int.tmod (Int.fdiv t (2 ^ n)) (h : ℤ) * 2 ^ n + t % 2 ^ n + q [ZMOD N] :=
        modSubLoop_modEq N _
    _ = t - q * N := by rw [hN, hq]; exact shift_add_identity h n t
    _ ≡ t - 0 [ZMOD N] := by
        exact Int.ModEq.sub (Int.ModEq.refl t)
          (Int.modEq_zero_iff_dvd.mpr (dvd_mul_left N q))
    _ = t := by ring

/-- For a small negative t (t = -2 or -1 arises from u = 0 or 1), the
floor shift extracts J = -1 and the low bits give K = t + 2 ^ n. -/
lemma fdiv_emod_neg_small (n : ℕ) (t : ℤ) (hn : 1 ≤ n) (ht1 : -2 ≤ t) (ht2 : t < 0) :
    Int.fdiv t (2 ^ n) = -1 ∧ t % 2 ^ n = t + 2 ^ n := by
  have h2 : (2 : ℤ) ≤ 2 ^ n := by
    calc (2 : ℤ) = 2 ^ 1 := (pow_one 2).symm
      _ ≤ 2 ^ n := pow_le_pow_right₀ (by norm_num) hn
  have hK : t % 2 ^ n = t + 2 ^ n := by
    have e1 : (t + 2 ^ n * 1) % 2 ^ n = t % 2 ^ n :=
      Int.add_mul_emod_self_left t (2 ^ n) 1
    have e2 : (t + 2 ^ n) % 2 ^ n = t + 2 ^ n :=
      Int.emod_eq_of_lt (by omega) (by omega)
    calc t % 2 ^ n = (t + 2 ^ n * 1) % 2 ^ n := e1.symm
      _ = (t + 2 ^ n) % 2 ^ n := by ring_nf
      _ = t + 2 ^ n := e2
  refine ⟨?_, hK⟩
  rw [Int.fdiv_eq_ediv t (by positivity)]
  have e3 : (2 : ℤ) ^ n * (t / 2 ^ n) + t % 2 ^ n = t := Int.ediv_add_emod t (2 ^ n)
  have e4 : (2 : ℤ) ^ n * (t / 2 ^ n) = 2 ^ n * (-1) := by rw [hK] at e3; linarith
  exact mul_left_cancel₀ (pow_ne_zero n two_ne_zero) e4

/-- For the Mersenne case h = 1, a small negative input to the
reduction comes out shifted into range by one addition of N. -/
lemma mod_riesel_neg_small_one (n : ℕ) (t : ℤ) (hn : 1 ≤ n)
    (ht1 : -2 ≤ t) (ht2 : t < 0) :
    mod_riesel 1 n t = t + (2 ^ n - 1) := by
  obtain ⟨hJ, hK⟩ := fdiv_emod_neg_small n t hn ht1 ht2
  have h2 : (2 : ℤ) ≤ 2 ^ n := by
    calc (2 : ℤ) = 2 ^ 1 := (pow_one 2).symm
      _ ≤ 2 ^ n := pow_le_pow_right₀ (by norm_num) hn
  have hq : Int.tdiv (-1) ((1 : ℕ) : ℤ) = -1 := by norm_num
  have hr : Int.tmod (-1) ((1 : ℕ) : ℤ) = 0 := by norm_num
  unfold mod_riesel
  simp only [hJ, hK, hq, hr]
  rw [show (0 : ℤ) * 2 ^ n + (t + 2 ^ n) + -1 = t + (2 ^ n - 1) by ring]
  rw [modSubLoop_of_lt _ _ (by push_cast; omega)]

/-- For h > 1, a small negative input to the reduction is returned
unchanged (the quotient by h vanishes, so nothing compensates the
negative carry): this is the range violation of the engine. -/
lemma mod_riesel_neg_small_big (h n : ℕ) (t : ℤ) (hh : 1 < h) (hn : 1 ≤ n)
    (ht1 : -2 ≤ t) (ht2 : t < 0) :
    mod_riesel h n t = t := by
  obtain ⟨hJ, hK⟩ := fdiv_emod_neg_small n t hn ht1 ht2
  have h2 : (2 : ℤ) ≤ 2 ^ n := by
    calc (2 : ℤ) = 2 ^ 1 := (pow_one 2).symm
      _ ≤ 2 ^ n := pow_le_pow_right₀ (by norm_num) hn
  have hhz : (1 : ℤ) < (h : ℤ) := by exact_mod_cast hh
  have hq : Int.tdiv (-1) ((h : ℕ) : ℤ) = 0 := by
    rw [show ((-1 : ℤ)) = -(1 : ℤ) from rfl, Int.neg_tdiv]
    have : Int.tdiv 1 ((h : ℕ) : ℤ) = 0 := by
      rw [Int.tdiv_eq_ediv (by norm_num) (by omega)]
      exact Int.ediv_eq_zero_of_lt (by norm_num) hhz
    omega
  have hr : Int.tmod (-1) ((h : ℕ) : ℤ) = -1 := by
    have := Int.tdiv_add_tmod (-1) ((h : ℕ) : ℤ)
    rw [hq] at this
    omega
  unfold mod_riesel
  simp only [hJ, hK, hq, hr]
  rw [show (-1 : ℤ) * 2 ^ n + (t + 2 ^ n) + 0 = t by ring]
  have hN : (1 : ℤ) ≤ (h : ℤ) * 2 ^ n - 1 := by nlinarith
  rw [modSubLoop_of_lt _ _ (by omega)]

/-! ## C1: the modular step -/

/-- C1 counterexample: for h = 3, n = 3 (N = 23) and U = 0, one
iteration of the modular step of the driver yields -2, which violates
the claimed bound 0 <= result < N (the congruence still holds). -/
theorem mod_engine_claim_false_at_zero :
    modStep 3 3 0 = -2
    ∧ ¬ (0 ≤ modStep 3 3 0 ∧ modStep 3 3 0 < (3 : ℤ) * 2 ^ 3 - 1) := by
  have hval : modStep 3 3 0 = -2 := by
    have := mod_riesel_neg_small_big 3 3 (-2) (by norm_num) (by norm_num)
      (by norm_num) (by norm_num)
    unfold modStep
    rw [show ((0 : ℤ) * 0 - 2) = -2 by ring]
    exact_mod_cast this
  exact ⟨hval, by rw [hval]; norm_num⟩

/-- C1 (amended): one iteration of the modular step on U with
0 <= U < N = h * 2 ^ n - 1 always produces a value congruent to
U ^ 2 - 2 modulo N; the claimed range 0 <= result < N holds whenever
2 <= U, and also for U in 0,1 when h = 1 and n >= 2; but when h > 1
and U is 0 or 1 the step returns U ^ 2 - 2 itself, which is negative. -/
theorem mod_engine_step (h n : ℕ) (u : ℤ)
    (hodd : h % 2 = 1) (hh : 1 ≤ h) (hn : 1 ≤ n) (hlt : h < 2 ^ n)
    (hu0 : 0 ≤ u) (hu1 : u < (h : ℤ) * 2 ^ n - 1) :
    (modStep h n u ≡ u * u - 2 [ZMOD ((h : ℤ) * 2 ^ n - 1)])
    ∧ (2 ≤ u → 0 ≤ modStep h n u ∧ modStep h n u < (h : ℤ) * 2 ^ n - 1)
    ∧ (h = 1 → 2 ≤ n → 0 ≤ modStep h n u ∧ modStep h n u < (h : ℤ) * 2 ^ n - 1)
    ∧ (1 < h → u ≤ 1 → modStep h n u = u * u - 2) := by
  have h2 : (2 : ℤ) ≤ 2 ^ n := by
    calc (2 : ℤ) = 2 ^ 1 := (pow_one 2).symm
      _ ≤ 2 ^ n := pow_le_pow_right₀ (by norm_num) hn
  have hhz : (1 : ℤ) ≤ (h : ℤ) := by exact_mod_cast hh
  have hN1 : (1 : ℤ) ≤ (h : ℤ) * 2 ^ n - 1 := by nlinarith
  have key2 : 2 ≤ u → 0 ≤ modStep h n u ∧ modStep h n u < (h : ℤ) * 2 ^ n - 1 := by
    intro hu2
    have ht0 : (0 : ℤ) ≤ u * u - 2 := by nlinarith
    have hJ0 : (0 : ℤ) ≤ Int.fdiv (u * u - 2) (2 ^ n) :=
      Int.fdiv_nonneg ht0 (by positivity)
    have hq0 : (0 : ℤ) ≤ Int.tdiv (Int.fdiv (u * u - 2) (2 ^ n)) ((h : ℕ) : ℤ) :=
      Int.tdiv_nonneg hJ0 (by positivity)
    have hr0 : (0 : ℤ) ≤ Int.tmod (Int.fdiv (u * u - 2) (2 ^ n)) ((h : ℕ) : ℤ) :=
      Int.tmod_nonneg _ hJ0
    have hK0 : (0 : ℤ) ≤ (u * u - 2) % 2 ^ n :=
      Int.emod_nonneg _ (by positivity)
    have hsum0 : (0 : ℤ) ≤
        Int.tmod (Int.fdiv (u * u - 2) (2 ^ n)) ((h : ℕ) : ℤ) * 2 ^ n
          + (u * u - 2) % 2 ^ n
          + Int.tdiv (Int.fdiv (u * u - 2) (2 ^ n)) ((h : ℕ) : ℤ) := by
      have : (0 : ℤ) ≤ Int.tmod (Int.fdiv (u * u - 2) (2 ^ n)) ((h : ℕ) : ℤ) * 2 ^ n :=
        mul_nonneg hr0 (by positivity)
      omega
    unfold modStep mod_riesel
    exact modSubLoop_bounds _ _ hN1 hsum0
  refine ⟨by simpa [modStep] using mod_riesel_modEq h n (u * u - 2), key2, ?_, ?_⟩
  · intro h1 hn2
    rcases show u = 0 ∨ u = 1 ∨ 2 ≤ u by omega with hu | hu | hu
    · subst hu
      have := mod_riesel_neg_small_one n (0 * 0 - 2) hn (by norm_num) (by norm_num)
      subst h1
      unfold modStep
      rw [this]
      have h4 : (4 : ℤ) ≤ 2 ^ n := by
        calc (4 : ℤ) = 2 ^ 2 := by norm_num
          _ ≤ 2 ^ n := pow_le_pow_right₀ (by norm_num) hn2
      push_cast
      omega
    · subst hu
      have := mod_riesel_neg_small_one n (1 * 1 - 2) hn (by norm_num) (by norm_num)
      subst h1
      unfold modStep
      rw [this]
      push_cast
      omega
    · exact key2 hu
  · intro hbig hu1l
    have hu01 : u = 0 ∨ u = 1 := by omega
    have ht : -2 ≤ u * u - 2 ∧ u * u - 2 < 0 := by
      rcases hu01 with hu | hu <;> subst hu <;> norm_num
    unfold modStep
    exact mod_riesel_neg_small_big h n (u * u - 2) hbig hn ht.1 ht.2

/-- C1 witness: the amended step theorem instantiated at h = 3, n = 2,
U = 5 (N = 11), with every hypothesis discharged concretely. -/
theorem mod_engine_step_witness :
    ((3 : ℕ) % 2 = 1 ∧ 1 ≤ (3 : ℕ) ∧ 1 ≤ (2 : ℕ) ∧ (3 : ℕ) < 2 ^ 2
      ∧ (0 : ℤ) ≤ 5 ∧ (5 : ℤ) < ((3 : ℕ) : ℤ) * 2 ^ 2 - 1)
    ∧ ((modStep 3 2 5 ≡ 5 * 5 - 2 [ZMOD ((3 : ℕ) : ℤ) * 2 ^ 2 - 1])
      ∧ ((2 : ℤ) ≤ 5 → 0 ≤ modStep 3 2 5 ∧ modStep 3 2 5 < ((3 : ℕ) : ℤ) * 2 ^ 2 - 1)
      ∧ ((3 : ℕ) = 1 → 2 ≤ (2 : ℕ) → 0 ≤ modStep 3 2 5 ∧ modStep 3 2 5 < ((3 : ℕ) : ℤ) * 2 ^ 2 - 1)
      ∧ (1 < (3 : ℕ) → (5 : ℤ) ≤ 1 → modStep 3 2 5 = 5 * 5 - 2)) :=
  ⟨by decide,
   mod_engine_step 3 2 5 (by decide) (by decide) (by decide) (by decide)
     (by decide) (by decide)⟩

/-! ## C2: the final verdict -/

/-- C2: when the main loop of gmprime.c finishes (the loop is over as
soon as the index reaches n), the program prints the prime line with
the user-supplied original h and n and exits 0 exactly when the final
term is 0, and otherwise prints the composite line and exits 1. -/
theorem driver_verdict (origH origN h n : ℕ) (u2 : ℤ) :
    (∀ u : ℤ, driverLoop h n n u = u)
    ∧ gmprimeVerdict origH origN h n u2
      = (if driverLoop h n 2 u2 = 0 then (primeLine origH origN, 0)
         else (compositeLine origH origN, 1))
    ∧ ((gmprimeVerdict origH origN h n u2).2 = 0 ↔ driverLoop h n 2 u2 = 0) := by
  refine ⟨?_, ?_, ?_⟩
  · intro u
    rw [driverLoop]
    simp
  · unfold gmprimeVerdict finalReport
    rfl
  · unfold gmprimeVerdict finalReport
    by_cases hz : driverLoop h n 2 u2 = 0 <;> simp [hz]

/-! ## C6: the checkpoint-needed predicate -/

/-- Embedding of checkpoint_needed from the checkpoint module.  The
C arguments are unsigned long (64-bit) values; the two subtractions
n - CHECKPOINT_PREVIEW (1024) and n - 1 are therefore computed modulo
2 ^ 64, exactly as C unsigned arithmetic does.  The signal counters
checkpoint_alarm and checkpoint_and_end are globals in the source and
are passed here as the first two arguments. -/
def checkpoint_needed (alarm andEnd h n i multiple : ℕ) : Bool :=
  if alarm ≠ 0 then true
  else if andEnd ≠ 0 then true
  else if h < 1 then true
  else if n < 2 then true
  else if i < 2 then true
  else if i > n then true
  else if i = 2 then true
  else if i = (n + (2 ^ 64 - 1024)) % 2 ^ 64 then true
  else if i = (n + (2 ^ 64 - 1)) % 2 ^ 64 then true
  else if i = n then true
  else if multiple > 0 ∧ i % multiple = 0 then true
  else false

/-- The trigger list stated by the specification for claim C6 (written
from the words of the spec, to compare with the source embedding):
alarm, termination request, i = 2, i = n - 1024, i = n - 1, i = n, or a
positive multiple dividing i. -/
def checkpoint_needed_claimed (alarm andEnd n i multiple : ℕ) : Prop :=
  alarm ≠ 0 ∨ andEnd ≠ 0 ∨ i = 2 ∨ i = n - 1024 ∨ i = n - 1 ∨ i = n
    ∨ (multiple > 0 ∧ i % multiple = 0)

/-- C6 counterexample: with no signal pending, h = 1, n = 2000, i = 0
and no multiple, the source predicate returns true (firewall branch
i < 2), although none of the spec-listed conditions holds. -/
theorem checkpoint_needed_claim_false :
    checkpoint_needed 0 0 1 2000 0 0 = true
    ∧ ¬ checkpoint_needed_claimed 0 0 2000 0 0 := by
  refine ⟨by decide, ?_⟩
  unfold checkpoint_needed_claimed
  decide

set_option maxHeartbeats 1000000 in
/-- C6 (amended): checkpoint_needed returns true exactly when one of
the spec-listed conditions holds or one of the firewall conditions
h < 1, n < 2, i < 2, i > n holds, and false otherwise. -/
theorem checkpoint_needed_characterization (alarm andEnd h n i multiple : ℕ)
    (hn : n < 2 ^ 64) (hi : i < 2 ^ 64) :
    checkpoint_needed alarm andEnd h n i multiple = true
    ↔ (checkpoint_needed_claimed alarm andEnd n i multiple
        ∨ h < 1 ∨ n < 2 ∨ i < 2 ∨ i > n) := by
  unfold checkpoint_needed checkpoint_needed_claimed
  split_ifs with h1 h2 h3 h4 h5 h6 h7 h8 h9 h10 h11
  · simp only [true_iff]; exact Or.inl (Or.inl h1)
  · simp only [true_iff]; exact Or.inl (Or.inr (Or.inl h2))
  · simp only [true_iff]; exact Or.inr (Or.inl h3)
  · simp only [true_iff]; exact Or.inr (Or.inr (Or.inl h4))
  · simp only [true_iff]; exact Or.inr (Or.inr (Or.inr (Or.inl h5)))
  · simp only [true_iff]; exact Or.inr (Or.inr (Or.inr (Or.inr h6)))
  · simp only [true_iff]; exact Or.inl (Or.inr (Or.inr (Or.inl h7)))
  · simp only [true_iff]
    exact Or.inl (Or.inr (Or.inr (Or.inr (Or.inl (by omega)))))
  · simp only [true_iff]
    exact Or.inl (Or.inr (Or.inr (Or.inr (Or.inr (Or.inl (by omega))))))
  · simp only [true_iff]
    exact Or.inl (Or.inr (Or.inr (Or.inr (Or.inr (Or.inr (Or.inl h10))))))
  · simp only [true_iff]
    exact Or.inl (Or.inr (Or.inr (Or.inr (Or.inr (Or.inr (Or.inr h11))))))
  · simp only [false_iff]
    rintro ((hc | hc | hc | hc | hc | hc | hc) | hc | hc | hc | hc)
    · exact h1 hc
    · exact h2 hc
    · exact h7 hc
    · omega
    · omega
    · exact h10 hc
    · exact h11 hc
    · exact h3 hc
    · exact h4 hc
    · exact h5 hc
    · exact h6 hc

/-- C6 witness: the amended characterization instantiated at
alarm = 0, andEnd = 0, h = 1, n = 2000, i = 500, multiple = 0. -/
theorem checkpoint_needed_characterization_witness :
    ((2000 : ℕ) < 2 ^ 64 ∧ (500 : ℕ) < 2 ^ 64)
    ∧ (checkpoint_needed 0 0 1 2000 500 0 = true
        ↔ (checkpoint_needed_claimed 0 0 2000 500 0
            ∨ 1 < 1 ∨ 2000 < 2 ∨ 500 < 2 ∨ 500 > 2000)) :=
  ⟨by decide,
   checkpoint_needed_characterization 0 0 1 2000 500 0 (by decide) (by decide)⟩

/-! ## The Lucas setup of lucas.c: gen_v1, rodseth_xhn, gen_u2, gen_u0 -/

/-- Error code of lucas.h: h is < 1. -/
def LT_ONE_H : ℕ := 1

/-- Error code of lucas.h: h is even. -/
def EVEN_H : ℕ := 2

/-- Error code of lucas.h: n is < 1. -/
def LT_ONE_N : ℕ := 4

/-- Error code of lucas.h: v1 is < 3. -/
def LT_THREE_V1 : ℕ := 8

/-- Error code of lucas.h: h and n violate the rule 0 < h < 2 ^ n. -/
def H_N_RULE_VIOL : ℕ := 16

/-- The fixed table of preferred x values of lucas.c. -/
def x_tbl : List ℕ :=
  [3, 5, 9, 11, 15, 17, 21, 29, 27, 35, 39, 41, 31, 45, 51, 55, 49, 59,
   69, 65, 71, 57, 85, 81, 95, 99, 77, 53, 67, 125, 111, 105, 87, 129,
   101, 83, 165, 155, 149, 141, 121, 109]

/-- The next probable x value when the table is exhausted (lucas.c). -/
def next_x : ℕ := 167

/-- Embedding of rodseth_xhn of lucas.c: v(1) = x is admissible for
N = h * 2 ^ n - 1 when x > 2, jacobi(x - 2, N) = 1 and
jacobi(x + 2, N) = -1.  The global riesel_cand is passed as N. -/
def rodseth_xhn (N : ℕ) (x : ℕ) : Bool :=
  if x ≤ 2 then false
  else
    decide (jacobiSym ((x : ℤ) - 2) N = 1)
      && decide (jacobiSym ((x : ℤ) + 2) N = -1)

/-- The x_tbl scan of gen_v1: first table entry accepted by
rodseth_xhn, in table order. -/
def find_tbl (N : ℕ) : List ℕ → Option ℕ
  | [] => none
  | x :: rest => if rodseth_xhn N x then some x else find_tbl N rest

/-- The linear search of gen_v1 over odd values x, x+2, x+4, ...; the
C loop is unbounded, so the embedding carries fuel and returns none
only when the fuel runs out (an artifact of the embedding). -/
def linear_odd_search (N : ℕ) : ℕ → ℕ → Option ℕ
  | 0, _ => none
  | fuel + 1, x =>
      if rodseth_xhn N x then some x else linear_odd_search N fuel (x + 2)

/-- Embedding of gen_v1 of lucas.c.  The outer Option is none only on
fuel exhaustion of the linear search (which loops forever in C); the
inner Except carries the C error codes or the v1 value stored through
the output parameter. -/
def gen_v1 (fuel h n : ℕ) : Option (Except ℕ ℕ) :=
  if h % 2 = 0 then some (Except.error EVEN_H)
  else if h < 1 then some (Except.error LT_ONE_H)
  else if n < 1 then some (Except.error LT_ONE_N)
  else if h % 3 ≠ 0 then some (Except.ok 4)
  else
    match find_tbl (h * 2 ^ n - 1) x_tbl with
    | some x => some (Except.ok x)
    | none => (linear_odd_search (h * 2 ^ n - 1) fuel next_x).map Except.ok

/-- The search order of gen_v1 as stated by the spec: the 42 entries
of x_tbl first, then the odd values 167, 169, 171, ... -/
def v1_candidate (k : ℕ) : ℕ :=
  if k < x_tbl.length then x_tbl.getD k 0 else next_x + 2 * (k - x_tbl.length)

/-- Embedding of fcnt of lucas.c: the number of times 2 divides a.
The C loop does not terminate on a = 0; the value 0 returned here for
a = 0 is never relied upon (every caller has rejected even or zero h
before, or only uses fcnt on positive arguments). -/
def fcnt (a : ℕ) : ℕ :=
  if a % 2 = 0 ∧ a ≠ 0 then fcnt (a / 2) + 1 else 0
decreasing_by omega

/-- The HIGHBIT macro of lucas.c: index of the highest set bit of a
64-bit value, i.e. the base-2 logarithm for a >= 1. -/
def hbits (a : ℕ) : ℕ := Nat.log2 a

/-- One iteration of the bit loop of gen_u2: for a set bit the pair
(r, s) becomes ((r*s - v1) mod N, (s^2 - 2) mod N), for a clear bit it
becomes ((r^2 - 2) mod N, (r*s - v1) mod N). -/
def ladder_step (N v1 : ℤ) (bit : Bool) (rs : ℤ × ℤ) : ℤ × ℤ :=
  if bit then ((rs.1 * rs.2 - v1) % N, (rs.2 * rs.2 - 2) % N)
  else ((rs.1 * rs.1 - 2) % N, (rs.1 * rs.2 - v1) % N)

/-- The bit loop of gen_u2: cycle from bit i down to bit 1 of h,
applying ladder_step for each bit. -/
def ladder_loop (N v1 : ℤ) (h : ℕ) : ℕ → ℤ × ℤ → ℤ × ℤ
  | 0, rs => rs
  | i + 1, rs => ladder_loop N v1 h i (ladder_step N v1 (h.testBit (i + 1)) rs)

/-- Embedding of gen_u2 of lucas.c: argument checks, even-h reduction,
the h = 1 collapse, and the left-to-right binary ladder followed by
the final bit-0 step (h odd).  N is the global riesel_cand, built by
gen_u0 from the same h and n (unchanged by the shift: h2 * 2 ^ n2 =
h * 2 ^ n). -/
def gen_u2 (h n v1 : ℕ) : Except ℕ ℤ :=
  let N : ℤ := (h : ℤ) * 2 ^ n - 1
  if h < 0 then Except.error LT_ONE_H
  else if n < 1 then Except.error LT_ONE_N
  else if v1 < 3 then Except.error LT_THREE_V1
  else
    let sd := fcnt h
    let h2 := h >>> sd
    let n2 := n + sd
    if h2 = 0 ∨ n2 < 1 then Except.error H_N_RULE_VIOL
    else if n2 ≤ hbits h2 then Except.error H_N_RULE_VIOL
    else if h2 = 1 then Except.ok ((v1 : ℤ) % N)
    else
      let p := ladder_loop N (v1 : ℤ) h2 (hbits h2 - 1) ((v1 : ℤ), (v1 : ℤ) * (v1 : ℤ) - 2)
      Except.ok ((p.1 * p.2 - (v1 : ℤ)) % N)

/-- Embedding of gen_u0 of lucas.c: build riesel_cand, run gen_v1,
propagate its error, otherwise run gen_u2 on the obtained v1. -/
def gen_u0 (fuel h n : ℕ) : Option (Except ℕ ℤ) :=
  match gen_v1 fuel h n with
  | none => none
  | some (Except.error e) => some (Except.error e)
  | some (Except.ok v1) => some (gen_u2 h n v1)

/-- The Lucas V sequence for a given v1: V(0) = 2, V(1) = v1,
V(k+2) = v1 * V(k+1) - V(k) (the recurrence of lucas.c comments). -/
def lucasV (v1 : ℤ) : ℕ → ℤ
  | 0 => 2
  | 1 => v1
  | k + 2 => v1 * lucasV v1 (k + 1) - lucasV v1 k

/-! ## Helper lemmas for the Lucas setup -/

/-- An odd number has no factor of two to count. -/
lemma fcnt_odd (a : ℕ) (ha : a % 2 = 1) : fcnt a = 0 := by
  rw [fcnt]
  simp only [if_neg (by omega : ¬ (a % 2 = 0 ∧ a ≠ 0))]

/-- The defining recurrence of the V sequence. -/
lemma lucasV_rec (v1 : ℤ) (m : ℕ) :
    lucasV v1 (m + 2) = v1 * lucasV v1 (m + 1) - lucasV v1 m := rfl

/-- The addition formula of the V sequence:
V(2k + d) = V(k + d) * V(k) - V(d). -/
lemma lucasV_add (v1 : ℤ) :
    ∀ k d, lucasV v1 (2 * k + d)
      = lucasV v1 (k + d) * lucasV v1 k - lucasV v1 d := by
  intro k
  induction k using Nat.twoStepInduction with
  | zero =>
    intro d
    rw [show 2 * 0 + d = d by omega]
    show lucasV v1 d = lucasV v1 d * 2 - lucasV v1 d
    ring
  | one =>
    intro d
    rw [show 2 * 1 + d = d + 2 by omega, show 1 + d = d + 1 by omega]
    rw [lucasV_rec]
    show v1 * lucasV v1 (d + 1) - lucasV v1 d
      = lucasV v1 (d + 1) * v1 - lucasV v1 d
    ring
  | more k ih1 ih2 =>
    intro d
    have A := ih2 (d + 2)
    rw [show 2 * (k + 1) + (d + 2) = 2 * k + d + 4 by omega,
        show k + 1 + (d + 2) = k + d + 3 by omega] at A
    have B := ih1 (d + 2)
    rw [show 2 * k + (d + 2) = 2 * k + d + 2 by omega,
        show k + (d + 2) = k + d + 2 by omega] at B
    have C := ih2 d
    rw [show 2 * (k + 1) + d = 2 * k + d + 2 by omega,
        show k + 1 + d = k + d + 1 by omega] at C
    have R1 := lucasV_rec v1 (k + d + 1)
    rw [show k + d + 1 + 2 = k + d + 3 by omega,
        show k + d + 1 + 1 = k + d + 2 by omega] at R1
    have R2 := lucasV_rec v1 k
    rw [show 2 * (k + 2) + d = 2 * k + d + 4 by omega,
        show k + 2 + d = k + d + 2 by omega]
    linear_combination A - B + C + lucasV v1 (k + 1) * R1
      - lucasV v1 (k + d + 2) * R2

/-- Doubling identity: V(2m) = V(m)^2 - 2. -/
lemma lucasV_double (v1 : ℤ) (m : ℕ) :
    lucasV v1 (2 * m) = lucasV v1 m * lucasV v1 m - 2 := by
  have := lucasV_add v1 m 0
  rw [show 2 * m + 0 = 2 * m by omega, show m + 0 = m by omega] at this
  simpa [lucasV] using this

/-- Doubling identity: V(2m + 1) = V(m+1) * V(m) - V(1). -/
lemma lucasV_double_succ (v1 : ℤ) (m : ℕ) :
    lucasV v1 (2 * m + 1) = lucasV v1 (m + 1) * lucasV v1 m - v1 := by
  have := lucasV_add v1 m 1
  rw [show m + 1 = m + 1 by omega] at this
  simpa [lucasV] using this

/-- Taking the nonnegative remainder preserves congruence. -/
lemma emod_self_modEq (a N : ℤ) : a % N ≡ a [ZMOD N] :=
  Int.emod_emod_of_dvd a dvd_rfl

/-- Splitting one more bit off a shifted value when the bit is set:
the shift by k is twice the shift by k + 1, plus one. -/
lemma shiftRight_split_true (h k : ℕ) (hb : h.testBit k = true) :
    h >>> k = 2 * (h >>> (k + 1)) + 1 := by
  have e1 : h >>> k = h / 2 ^ k := Nat.shiftRight_eq_div_pow h k
  have e2 : h >>> (k + 1) = h / 2 ^ (k + 1) := Nat.shiftRight_eq_div_pow h (k + 1)
  have e3 : h / 2 ^ k / 2 = h / 2 ^ (k + 1) := by
    rw [Nat.div_div_eq_div_mul, pow_succ]
  have e4 : h.testBit k = decide (h / 2 ^ k % 2 = 1) := Nat.testBit_to_div_mod
  rw [e4] at hb
  have e5 : h / 2 ^ k % 2 = 1 := of_decide_eq_true hb
  omega

/-- Splitting one more bit off a shifted value when the bit is clear:
the shift by k is exactly twice the shift by k + 1. -/
lemma shiftRight_split_false (h k : ℕ) (hb : h.testBit k = false) :
    h >>> k = 2 * (h >>> (k + 1)) := by
  have e1 : h >>> k = h / 2 ^ k := Nat.shiftRight_eq_div_pow h k
  have e2 : h >>> (k + 1) = h / 2 ^ (k + 1) := Nat.shiftRight_eq_div_pow h (k + 1)
  have e3 : h / 2 ^ k / 2 = h / 2 ^ (k + 1) := by
    rw [Nat.div_div_eq_div_mul, pow_succ]
  have e4 : h.testBit k = decide (h / 2 ^ k % 2 = 1) := Nat.testBit_to_div_mod
  rw [e4] at hb
  have e5 : ¬ (h / 2 ^ k % 2 = 1) := of_decide_eq_false hb
  omega

/-- Invariant of the gen_u2 bit loop: if the pair (r, s) holds
(V(m), V(m+1)) mod N for m = h >>> (i+1), then running the loop down
to bit 1 yields (V(h >>> 1), V(h >>> 1 + 1)) mod N. -/
lemma ladder_loop_invariant (N v1 : ℤ) (h : ℕ) :
    ∀ i rs, rs.1 ≡ lucasV v1 (h >>> (i + 1)) [ZMOD N] →
      rs.2 ≡ lucasV v1 (h >>> (i + 1) + 1) [ZMOD N] →
      (ladder_loop N v1 h i rs).1 ≡ lucasV v1 (h >>> 1) [ZMOD N]
        ∧ (ladder_loop N v1 h i rs).2 ≡ lucasV v1 (h >>> 1 + 1) [ZMOD N] := by
  intro i
  induction i with
  | zero =>
    intro rs h1 h2
    exact ⟨h1, h2⟩
  | succ i ih =>
    intro rs h1 h2
    show (ladder_loop N v1 h i (ladder_step N v1 (h.testBit (i + 1)) rs)).1 ≡ _ [ZMOD N]
      ∧ (ladder_loop N v1 h i (ladder_step N v1 (h.testBit (i + 1)) rs)).2 ≡ _ [ZMOD N]
    set m := h >>> (i + 2) with hm
    apply ih
    · cases hb : h.testBit (i + 1) with
      | false =>
        have hsplit := shiftRight_split_false h (i + 1) hb
        rw [show i + 1 + 1 = i + 2 by omega] at hsplit
        rw [show h >>> (i + 1) = 2 * m by omega]
        show (rs.1 * rs.1 - 2) % N ≡ lucasV v1 (2 * m) [ZMOD N]
        calc (rs.1 * rs.1 - 2) % N ≡ rs.1 * rs.1 - 2 [ZMOD N] := emod_self_modEq _ N
          _ ≡ lucasV v1 (h >>> (i + 2)) * lucasV v1 (h >>> (i + 2)) - 2 [ZMOD N] :=
            Int.ModEq.sub (Int.ModEq.mul h1 h1) (Int.ModEq.refl 2)
          _ = lucasV v1 (2 * m) := (lucasV_double v1 m).symm
      | true =>
        have hsplit := shiftRight_split_true h (i + 1) hb
        rw [show i + 1 + 1 = i + 2 by omega] at hsplit
        rw [show h >>> (i + 1) = 2 * m + 1 by omega]
        show (rs.1 * rs.2 - v1) % N ≡ lucasV v1 (2 * m + 1) [ZMOD N]
        calc (rs.1 * rs.2 - v1) % N ≡ rs.1 * rs.2 - v1 [ZMOD N] := emod_self_modEq _ N
          _ ≡ lucasV v1 (h >>> (i + 2)) * lucasV v1 (h >>> (i + 2) + 1) - v1 [ZMOD N] :=
            Int.ModEq.sub (Int.ModEq.mul h1 h2) (Int.ModEq.refl v1)
          _ = lucasV v1 (2 * m + 1) := by
            rw [lucasV_double_succ v1 m]
            ring
    · cases hb : h.testBit (i + 1) with
      | false =>
        have hsplit := shiftRight_split_false h (i + 1) hb
        rw [show i + 1 + 1 = i + 2 by omega] at hsplit
        rw [show h >>> (i + 1) = 2 * m by omega]
        show (rs.1 * rs.2 - v1) % N ≡ lucasV v1 (2 * m + 1) [ZMOD N]
        calc (rs.1 * rs.2 - v1) % N ≡ rs.1 * rs.2 - v1 [ZMOD N] := emod_self_modEq _ N
          _ ≡ lucasV v1 (h >>> (i + 2)) * lucasV v1 (h >>> (i + 2) + 1) - v1 [ZMOD N] :=
            Int.ModEq.sub (Int.ModEq.mul h1 h2) (Int.ModEq.refl v1)
          _ = lucasV v1 (2 * m + 1) := by
            rw [lucasV_double_succ v1 m]
            ring
      | true =>
        have hsplit := shiftRight_split_true h (i + 1) hb
        rw [show i + 1 + 1 = i + 2 by omega] at hsplit
        rw [show h >>> (i + 1) = 2 * m + 1 by omega]
        show (rs.2 * rs.2 - 2) % N ≡ lucasV v1 (2 * m + 1 + 1) [ZMOD N]
        calc (rs.2 * rs.2 - 2) % N ≡ rs.2 * rs.2 - 2 [ZMOD N] := emod_self_modEq _ N
          _ ≡ lucasV v1 (h >>> (i + 2) + 1) * lucasV v1 (h >>> (i + 2) + 1) - 2 [ZMOD N] :=
            Int.ModEq.sub (Int.ModEq.mul h2 h2) (Int.ModEq.refl 2)
          _ = lucasV v1 (2 * m + 1 + 1) := by
            rw [show 2 * m + 1 + 1 = 2 * (m + 1) by omega, lucasV_double v1 (m + 1)]

/-- A candidate accepted by rodseth_xhn is larger than 2 (the x <= 2
firewall of the C function). -/
lemma rodseth_gt_two (N x : ℕ) (hx : rodseth_xhn N x = true) : 3 ≤ x := by
  by_contra hc
  rw [rodseth_xhn, if_pos (by omega : x ≤ 2)] at hx
  exact Bool.false_ne_true hx

/-- Soundness of the table scan: a hit is a table entry that satisfies
the Rodseth conditions while all earlier entries fail them. -/
lemma find_tbl_some (N : ℕ) :
    ∀ (l : List ℕ) (x : ℕ), find_tbl N l = some x →
      ∃ k, k < l.length ∧ l.getD k 0 = x ∧ rodseth_xhn N x = true
        ∧ ∀ j, j < k → rodseth_xhn N (l.getD j 0) = false := by
  intro l
  induction l with
  | nil =>
    intro x hx
    simp [find_tbl] at hx
  | cons y rest ih =>
    intro x hx
    rw [find_tbl] at hx
    by_cases hy : rodseth_xhn N y = true
    · rw [if_pos hy] at hx
      have hxy : y = x := Option.some.inj hx
      subst hxy
      exact ⟨0, by simp, rfl, hy, fun j hj => absurd hj (by omega)⟩
    · rw [if_neg hy] at hx
      obtain ⟨k, hk, hget, hsat, hmin⟩ := ih x hx
      refine ⟨k + 1, by simpa using hk, hget, hsat, ?_⟩
      intro j hj
      cases j with
      | zero => simpa using Bool.eq_false_iff.mpr hy
      | succ j => exact hmin j (by omega)

/-- When the table scan misses, every table entry fails the Rodseth
conditions. -/
lemma find_tbl_none (N : ℕ) :
    ∀ (l : List ℕ), find_tbl N l = none →
      ∀ y ∈ l, rodseth_xhn N y = false := by
  intro l
  induction l with
  | nil =>
    intro _ y hy
    simp at hy
  | cons z rest ih =>
    intro hx y hy
    rw [find_tbl] at hx
    by_cases hz : rodseth_xhn N z = true
    · rw [if_pos hz] at hx
      exact absurd hx (by simp)
    · rw [if_neg hz] at hx
      rcases List.mem_cons.mp hy with hyz | hyr
      · subst hyz
        exact Bool.eq_false_iff.mpr hz
      · exact ih hx y hyr

/-- Soundness of the linear search: a hit x0 + 2m satisfies the
Rodseth conditions and every earlier x0 + 2j fails them. -/
lemma linear_search_some (N : ℕ) :
    ∀ (fuel x0 x : ℕ), linear_odd_search N fuel x0 = some x →
      ∃ m, x = x0 + 2 * m ∧ rodseth_xhn N x = true
        ∧ ∀ j, j < m → rodseth_xhn N (x0 + 2 * j) = false := by
  intro fuel
  induction fuel with
  | zero =>
    intro x0 x hx
    simp [linear_odd_search] at hx
  | succ fuel ih =>
    intro x0 x hx
    rw [linear_odd_search] at hx
    by_cases h0 : rodseth_xhn N x0 = true
    · rw [if_pos h0] at hx
      have : x0 = x := Option.some.inj hx
      subst this
      exact ⟨0, by omega, h0, fun j hj => absurd hj (by omega)⟩
    · rw [if_neg h0] at hx
      obtain ⟨m, hval, hsat, hmin⟩ := ih (x0 + 2) x hx
      refine ⟨m + 1, by omega, hsat, ?_⟩
      intro j hj
      cases j with
      | zero => simpa using Bool.eq_false_iff.mpr h0
      | succ j =>
        have := hmin j (by omega)
        rw [show x0 + 2 * (j + 1) = x0 + 2 + 2 * j by omega]
        exact this

/-- The first 42 candidates of the spec search order are the table
entries. -/
lemma v1_candidate_tbl (k : ℕ) (hk : k < x_tbl.length) :
    v1_candidate k = x_tbl.getD k 0 := by
  rw [v1_candidate, if_pos hk]

/-- The candidates after the table are 167, 169, 171, ... -/
lemma v1_candidate_tail (m : ℕ) :
    v1_candidate (x_tbl.length + m) = next_x + 2 * m := by
  rw [v1_candidate, if_neg (by omega)]
  congr 1
  omega

/-- The error return values of gen_v1 are EVEN_H, LT_ONE_H or
LT_ONE_N; the search branches only ever produce ok values. -/
lemma gen_v1_error_codes (fuel h n e : ℕ)
    (hx : gen_v1 fuel h n = some (Except.error e)) :
    e = EVEN_H ∨ e = LT_ONE_H ∨ e = LT_ONE_N := by
  rw [gen_v1] at hx
  split_ifs at hx with h1 h2 h3 h4
  · exact Or.inl (Except.error.inj (Option.some.inj hx)).symm
  · exact Or.inr (Or.inl (Except.error.inj (Option.some.inj hx)).symm)
  · exact Or.inr (Or.inr (Except.error.inj (Option.some.inj hx)).symm)
  · exact absurd (Option.some.inj hx) (by simp)
  · cases hft : find_tbl (h * 2 ^ n - 1) x_tbl with
    | some y =>
      rw [hft] at hx
      exact absurd (Option.some.inj hx) (by simp)
    | none =>
      rw [hft] at hx
      cases hls : linear_odd_search (h * 2 ^ n - 1) fuel next_x with
      | none => rw [hls] at hx; exact absurd hx (by simp)
      | some z =>
        rw [hls] at hx
        exact absurd (Option.some.inj hx) (by simp)

/-- With v1 >= 3, gen_u2 never takes its v1 < 3 error branch. -/
lemma gen_u2_no_lt_three (h n v1 : ℕ) (hv : 3 ≤ v1) :
    gen_u2 h n v1 ≠ Except.error LT_THREE_V1 := by
  simp only [gen_u2]
  split_ifs with h1 h2 h3 h4 h5 h6
  · intro hc
    have := Except.error.inj hc
    rw [LT_ONE_H, LT_THREE_V1] at this
    omega
  · intro hc
    have := Except.error.inj hc
    rw [LT_ONE_N, LT_THREE_V1] at this
    omega
  · omega
  · intro hc
    have := Except.error.inj hc
    rw [H_N_RULE_VIOL, LT_THREE_V1] at this
    omega
  · intro hc
    have := Except.error.inj hc
    rw [H_N_RULE_VIOL, LT_THREE_V1] at this
    omega
  · simp
  · simp

/-! ## C4: the v1 search -/

/-- C4: on normalized input, gen_v1 stores 4 when h mod 3 is nonzero;
when h mod 3 = 0 it stores the first value in the search order (the
42-entry preferred table, then the odd values from 167 on) that
satisfies the two Jacobi conditions of rodseth_xhn, and no earlier
candidate in that order satisfies them. -/
theorem gen_v1_first_satisfier (fuel h n : ℕ)
    (hodd : h % 2 = 1) (hh : 1 ≤ h) (hn : 1 ≤ n)
    (hnot3 : ¬ (h % 3 = 1 ∧ n % 2 = 0) ∧ ¬ (h % 3 = 2 ∧ n % 2 = 1)) :
    (h % 3 ≠ 0 → gen_v1 fuel h n = some (Except.ok 4))
    ∧ (h % 3 = 0 → ∀ x, gen_v1 fuel h n = some (Except.ok x) →
        ∃ k, v1_candidate k = x
          ∧ rodseth_xhn (h * 2 ^ n - 1) x = true
          ∧ ∀ j, j < k → rodseth_xhn (h * 2 ^ n - 1) (v1_candidate j) = false) := by
  constructor
  · intro h3
    rw [gen_v1, if_neg (by omega), if_neg (by omega), if_neg (by omega), if_pos h3]
  · intro h3 x hx
    rw [gen_v1, if_neg (by omega), if_neg (by omega), if_neg (by omega),
      if_neg (by omega)] at hx
    cases hft : find_tbl (h * 2 ^ n - 1) x_tbl with
    | some y =>
      rw [hft] at hx
      have hxy : y = x := Except.ok.inj (Option.some.inj hx)
      subst hxy
      obtain ⟨k, hk, hget, hsat, hmin⟩ := find_tbl_some (h * 2 ^ n - 1) x_tbl y hft
      refine ⟨k, by rw [v1_candidate_tbl k hk]; exact hget, hsat, ?_⟩
      intro j hj
      rw [v1_candidate_tbl j (by omega)]
      exact hmin j hj
    | none =>
      rw [hft] at hx
      cases hls : linear_odd_search (h * 2 ^ n - 1) fuel next_x with
      | none =>
        rw [hls] at hx
        exact absurd hx (by simp)
      | some z =>
        rw [hls] at hx
        have hzx : z = x := Except.ok.inj (Option.some.inj hx)
        subst hzx
        obtain ⟨m, hval, hsat, hmin⟩ :=
          linear_search_some (h * 2 ^ n - 1) fuel next_x z hls
        have hall := find_tbl_none (h * 2 ^ n - 1) x_tbl hft
        refine ⟨x_tbl.length + m, by rw [v1_candidate_tail m]; omega, hsat, ?_⟩
        intro j hj
        by_cases hjl : j < x_tbl.length
        · rw [v1_candidate_tbl j hjl, List.getD_eq_get x_tbl 0 hjl]
          exact hall _ (List.get_mem x_tbl j hjl)
        · have hj2 : j = x_tbl.length + (j - x_tbl.length) := by omega
          rw [hj2, v1_candidate_tail (j - x_tbl.length)]
          exact hmin (j - x_tbl.length) (by omega)

/-- C4 witness: the search theorem instantiated at fuel 0, h = 1,
n = 1, with all hypotheses discharged; h mod 3 = 1, so the first
conjunct applies and gives v1 = 4. -/
theorem gen_v1_first_satisfier_witness :
    ((1 : ℕ) % 2 = 1 ∧ 1 ≤ (1 : ℕ) ∧ 1 ≤ (1 : ℕ)
      ∧ ¬ ((1 : ℕ) % 3 = 1 ∧ (1 : ℕ) % 2 = 0) ∧ ¬ ((1 : ℕ) % 3 = 2 ∧ (1 : ℕ) % 2 = 1))
    ∧ (((1 : ℕ) % 3 ≠ 0 → gen_v1 0 1 1 = some (Except.ok 4))
      ∧ ((1 : ℕ) % 3 = 0 → ∀ x, gen_v1 0 1 1 = some (Except.ok x) →
          ∃ k, v1_candidate k = x
            ∧ rodseth_xhn (1 * 2 ^ 1 - 1) x = true
            ∧ ∀ j, j < k → rodseth_xhn (1 * 2 ^ 1 - 1) (v1_candidate j) = false)) :=
  ⟨by decide,
   gen_v1_first_satisfier 0 1 1 (by decide) (by decide) (by decide)
     ⟨by decide, by decide⟩⟩

/-! ## C5: the u2 ladder -/

/-- C5: on input h odd >= 1, n >= 1, h < 2 ^ n and v1 >= 3, gen_u2
returns V(h) mod N for N = h * 2 ^ n - 1, where V is the Lucas V
sequence for v1; V satisfies the doubling identities of the spec
(here proved exactly over the integers, hence also mod N), and for
h = 1 the result is V(1) mod N = v1 mod N. -/
theorem gen_u2_computes_lucasV (h n v1 : ℕ)
    (hodd : h % 2 = 1) (hh : 1 ≤ h) (hn : 1 ≤ n) (hlt : h < 2 ^ n) (hv : 3 ≤ v1) :
    (∀ m, lucasV (v1 : ℤ) (2 * m) = lucasV (v1 : ℤ) m * lucasV (v1 : ℤ) m - 2)
    ∧ (∀ m, lucasV (v1 : ℤ) (2 * m + 1)
        = lucasV (v1 : ℤ) (m + 1) * lucasV (v1 : ℤ) m - (v1 : ℤ))
    ∧ gen_u2 h n v1 = Except.ok (lucasV (v1 : ℤ) h % ((h : ℤ) * 2 ^ n - 1)) := by
  refine ⟨lucasV_double (v1 : ℤ), lucasV_double_succ (v1 : ℤ), ?_⟩
  have hfc : fcnt h = 0 := fcnt_odd h hodd
  have hlog : Nat.log2 h < n := (Nat.log2_lt (by omega)).mpr hlt
  rw [gen_u2]
  rw [if_neg (by omega), if_neg (by omega), if_neg (by omega)]
  simp only [hfc, Nat.shiftRight_zero, Nat.add_zero, hbits]
  rw [if_neg (by omega), if_neg (by omega)]
  by_cases h1 : h = 1
  · rw [if_pos h1, h1]
    rfl
  · rw [if_neg h1]
    have hh3 : 3 ≤ h := by omega
    have hl1 : 1 ≤ Nat.log2 h := by
      refine (Nat.le_log2 (by omega)).mpr ?_
      calc (2 : ℕ) ^ 1 = 2 := by norm_num
        _ ≤ h := by omega
    have hshift_top : h >>> Nat.log2 h = 1 := by
      rw [Nat.shiftRight_eq_div_pow]
      refine Nat.div_eq_of_lt_le (by simpa using Nat.log2_self_le (by omega)) ?_
      have := @Nat.lt_log2_self h
      rw [pow_succ] at this
      omega
    have hinit1 : ((v1 : ℤ), (v1 : ℤ) * (v1 : ℤ) - 2).1
        ≡ lucasV (v1 : ℤ) (h >>> (Nat.log2 h - 1 + 1)) [ZMOD ((h : ℤ) * 2 ^ n - 1)] := by
      rw [show Nat.log2 h - 1 + 1 = Nat.log2 h by omega, hshift_top]
      exact Int.ModEq.refl _
    have hinit2 : ((v1 : ℤ), (v1 : ℤ) * (v1 : ℤ) - 2).2
        ≡ lucasV (v1 : ℤ) (h >>> (Nat.log2 h - 1 + 1) + 1) [ZMOD ((h : ℤ) * 2 ^ n - 1)] := by
      rw [show Nat.log2 h - 1 + 1 = Nat.log2 h by omega, hshift_top]
      exact Int.ModEq.refl _
    obtain ⟨hp1, hp2⟩ := ladder_loop_invariant ((h : ℤ) * 2 ^ n - 1) (v1 : ℤ) h
      (Nat.log2 h - 1) ((v1 : ℤ), (v1 : ℤ) * (v1 : ℤ) - 2) hinit1 hinit2
    have hhalf : 2 * (h >>> 1) + 1 = h := by
      rw [Nat.shiftRight_one]
      omega
    have hfinal : (ladder_loop ((h : ℤ) * 2 ^ n - 1) (v1 : ℤ) h (Nat.log2 h - 1)
          ((v1 : ℤ), (v1 : ℤ) * (v1 : ℤ) - 2)).1
        * (ladder_loop ((h : ℤ) * 2 ^ n - 1) (v1 : ℤ) h (Nat.log2 h - 1)
          ((v1 : ℤ), (v1 : ℤ) * (v1 : ℤ) - 2)).2 - (v1 : ℤ)
        ≡ lucasV (v1 : ℤ) h [ZMOD ((h : ℤ) * 2 ^ n - 1)] := by
      calc _ ≡ lucasV (v1 : ℤ) (h >>> 1) * lucasV (v1 : ℤ) (h >>> 1 + 1) - (v1 : ℤ)
            [ZMOD ((h : ℤ) * 2 ^ n - 1)] :=
            Int.ModEq.sub (Int.ModEq.mul hp1 hp2) (Int.ModEq.refl _)
        _ = lucasV (v1 : ℤ) h := by
            have hds := lucasV_double_succ (v1 : ℤ) (h >>> 1)
            rw [hhalf] at hds
            rw [hds]
            ring
    have : ((ladder_loop ((h : ℤ) * 2 ^ n - 1) (v1 : ℤ) h (Nat.log2 h - 1)
          ((v1 : ℤ), (v1 : ℤ) * (v1 : ℤ) - 2)).1
        * (ladder_loop ((h : ℤ) * 2 ^ n - 1) (v1 : ℤ) h (Nat.log2 h - 1)
          ((v1 : ℤ), (v1 : ℤ) * (v1 : ℤ) - 2)).2 - (v1 : ℤ)) % ((h : ℤ) * 2 ^ n - 1)
        = lucasV (v1 : ℤ) h % ((h : ℤ) * 2 ^ n - 1) := hfinal
    rw [this]

/-- C5 witness: the ladder theorem instantiated at h = 3, n = 2,
v1 = 5, with every hypothesis discharged concretely. -/
theorem gen_u2_computes_lucasV_witness :
    ((3 : ℕ) % 2 = 1 ∧ 1 ≤ (3 : ℕ) ∧ 1 ≤ (2 : ℕ) ∧ (3 : ℕ) < 2 ^ 2 ∧ 3 ≤ (5 : ℕ))
    ∧ ((∀ m, lucasV ((5 : ℕ) : ℤ) (2 * m)
          = lucasV ((5 : ℕ) : ℤ) m * lucasV ((5 : ℕ) : ℤ) m - 2)
      ∧ (∀ m, lucasV ((5 : ℕ) : ℤ) (2 * m + 1)
          = lucasV ((5 : ℕ) : ℤ) (m + 1) * lucasV ((5 : ℕ) : ℤ) m - ((5 : ℕ) : ℤ))
      ∧ gen_u2 3 2 5
          = Except.ok (lucasV ((5 : ℕ) : ℤ) 3 % (((3 : ℕ) : ℤ) * 2 ^ 2 - 1))) :=
  ⟨by decide,
   gen_u2_computes_lucasV 3 2 5 (by decide) (by decide) (by decide) (by decide)
     (by decide)⟩

/-! ## C10: v1 is always at least 3 -/

/-- C10: every v1 stored by a successful gen_v1 is at least 3 (4 when
h mod 3 is nonzero, a candidate accepted by rodseth_xhn otherwise,
which rejects everything below 3), so the LT_THREE_V1 error branch of
gen_u2 is unreachable through gen_u0. -/
theorem gen_v1_ge_three_lt_three_unreachable :
    (∀ fuel h n x, gen_v1 fuel h n = some (Except.ok x) → 3 ≤ x)
    ∧ (∀ fuel h n, gen_u0 fuel h n ≠ some (Except.error LT_THREE_V1)) := by
  have part1 : ∀ fuel h n x, gen_v1 fuel h n = some (Except.ok x) → 3 ≤ x := by
    intro fuel h n x hx
    rw [gen_v1] at hx
    split_ifs at hx with h1 h2 h3 h4
    · exact absurd (Option.some.inj hx) (by simp)
    · exact absurd (Option.some.inj hx) (by simp)
    · exact absurd (Option.some.inj hx) (by simp)
    · have : (4 : ℕ) = x := Except.ok.inj (Option.some.inj hx)
      omega
    · cases hft : find_tbl (h * 2 ^ n - 1) x_tbl with
      | some y =>
        rw [hft] at hx
        have hxy : y = x := Except.ok.inj (Option.some.inj hx)
        subst hxy
        obtain ⟨k, hk, hget, hsat, hmin⟩ :=
          find_tbl_some (h * 2 ^ n - 1) x_tbl y hft
        exact rodseth_gt_two _ y hsat
      | none =>
        rw [hft] at hx
        cases hls : linear_odd_search (h * 2 ^ n - 1) fuel next_x with
        | none => rw [hls] at hx; exact absurd hx (by simp)
        | some z =>
          rw [hls] at hx
          have hzx : z = x := Except.ok.inj (Option.some.inj hx)
          subst hzx
          obtain ⟨m, hval, hsat, hmin⟩ :=
            linear_search_some (h * 2 ^ n - 1) fuel next_x z hls
          exact rodseth_gt_two _ z hsat
  refine ⟨part1, ?_⟩
  intro fuel h n
  rw [gen_u0]
  cases hg : gen_v1 fuel h n with
  | none => simp
  | some r =>
    cases r with
    | error e =>
      have he := gen_v1_error_codes fuel h n e hg
      intro hc
      have : e = LT_THREE_V1 := Except.error.inj (Option.some.inj hc)
      rcases he with he | he | he <;>
        rw [he] at this <;>
        revert this <;>
        decide
    | ok v1 =>
      have hv : 3 ≤ v1 := part1 fuel h n v1 hg
      intro hc
      exact gen_u2_no_lt_three h n v1 hv (Option.some.inj hc)

/-- C10 witness: at fuel 0, h = 1, n = 1, gen_v1 succeeds with 4 and
the stored value is at least 3; gen_u0 does not return LT_THREE_V1. -/
theorem gen_v1_ge_three_lt_three_unreachable_witness :
    gen_v1 0 1 1 = some (Except.ok 4)
    ∧ 3 ≤ 4
    ∧ gen_u0 0 1 1 ≠ some (Except.error LT_THREE_V1) :=
  ⟨rfl,
   gen_v1_ge_three_lt_three_unreachable.1 0 1 1 4 rfl,
   gen_v1_ge_three_lt_three_unreachable.2 0 1 1⟩

/-! ## The checkpoint write path: rotation, record, signal epilogue

The checkpoint function of the checkpoint module is embedded over an
abstract four-slot file system (the rolling files chk.cur.pt,
chk.prev-0.pt, chk.prev-1.pt, chk.prev-2.pt); a file is a list of
key/value records, one per "key = value ;" line.  The trace of file
operations performed is returned alongside the new state.  The
save/result hard links of setup_chkpt_links are outside the scope of
the claims modelled here. -/

/-- File name of the current checkpoint (CHKPT_CUR_FILE). -/
def chk_cur_file : String := "chk.cur.pt"

/-- File name of the previous checkpoint (CHKPT_PREV0_FILE). -/
def chk_prev0_file : String := "chk.prev-0.pt"

/-- File name of the second previous checkpoint (CHKPT_PREV1_FILE). -/
def chk_prev1_file : String := "chk.prev-1.pt"

/-- File name of the third previous checkpoint (CHKPT_PREV2_FILE). -/
def chk_prev2_file : String := "chk.prev-2.pt"

/-- A file operation performed by the checkpoint write path, in the
order the C code issues them. -/
inductive FsOp where
  | rename (src dst : String)
  | createExcl (name : String)
  | writeLine (key value : String)
  | flushFile
  | closeFile

/-- The rolling checkpoint files of the checkpoint directory.  A slot
is none when the file does not exist (the access checks of the C
code). -/
structure ChkFS where
  cur : Option (List (String × String))
  prev0 : Option (List (String × String))
  prev1 : Option (List (String × String))
  prev2 : Option (List (String × String))

/-- The process environment serialized into a checkpoint record:
hostname, cwd, directory name, pid and ppid strings, the stats values
(by block base name and field subname) and the u_term hex string. -/
structure ChkEnv where
  hostname : String
  cwd : String
  dirname : String
  pidStr : String
  ppidStr : String
  statsVal : String → String → String
  uTermHex : String

/-- The field subnames of one prime-stats block, in the order
write_calc_prime_stats_ptr writes them. -/
def stats_subnames : List String :=
  ["timestamp", "date_time", "ru_utime", "ru_stime", "wall_clock",
   "ru_maxrss", "ru_minflt", "ru_majflt", "ru_inblock", "ru_oublock",
   "ru_nvcsw", "ru_nivcsw"]

/-- One prime-stats block: each line carries the two-part name
base_subname (write_calc_* with a non-null basename). -/
def stats_block (vals : String → String → String) (base : String) :
    List (String × String) :=
  stats_subnames.map (fun sub => (base ++ "_" ++ sub, vals base sub))

/-- The four block base names written by write_calc_prime_stats with
the extended flag set, in order. -/
def stats_bases : List String := ["beginrun", "current", "restored", "total"]

/-- The full prime-stats part of a checkpoint record. -/
def prime_stats_record (vals : String → String → String) :
    List (String × String) :=
  (stats_bases.map (fun base => stats_block vals base)).flatten

/-- Everything the checkpoint function writes before the sentinel:
version, hostname, cwd, checkpoint_dir, pid, ppid, n, h, i, v1, the
extended prime stats, and u_term, in the order of the C code. -/
def chk_record_front (env : ChkEnv) (h n i v1 : ℕ) : List (String × String) :=
  [("version", toString (2 : ℕ)),
   ("hostname", env.hostname),
   ("cwd", env.cwd),
   ("checkpoint_dir", env.dirname),
   ("pid", env.pidStr),
   ("ppid", env.ppidStr),
   ("n", toString n),
   ("h", toString h),
   ("i", toString i),
   ("v1", toString v1)]
  ++ prime_stats_record env.statsVal
  ++ [("u_term", env.uTermHex)]

/-- A complete checkpoint record: the front, then the sentinel line
complete = "true", always written last. -/
def chk_record (env : ChkEnv) (h n i v1 : ℕ) : List (String × String) :=
  chk_record_front env h n i v1 ++ [("complete", "true")]

/-- The rotation and write sequence of the checkpoint function:
rename prev-1 to prev-2 if present, then prev-0 to prev-1 if present,
then cur to prev-0 if present, then create cur exclusively (none is
returned if it still exists), write the record, flush, close. -/
def chkpt_rotate_write (fs : ChkFS) (rec : List (String × String)) :
    Option (List FsOp × ChkFS) :=
  let step1 : List FsOp × ChkFS :=
    if fs.prev1.isSome then
      ([FsOp.rename chk_prev1_file chk_prev2_file],
       { fs with prev2 := fs.prev1, prev1 := none })
    else ([], fs)
  let fs1 := step1.2
  let step2 : List FsOp × ChkFS :=
    if fs1.prev0.isSome then
      ([FsOp.rename chk_prev0_file chk_prev1_file],
       { fs1 with prev1 := fs1.prev0, prev0 := none })
    else ([], fs1)
  let fs2 := step2.2
  let step3 : List FsOp × ChkFS :=
    if fs2.cur.isSome then
      ([FsOp.rename chk_cur_file chk_prev0_file],
       { fs2 with prev0 := fs2.cur, cur := none })
    else ([], fs2)
  let fs3 := step3.2
  if fs3.cur.isSome then none
  else some
    (step1.1 ++ step2.1 ++ step3.1
      ++ [FsOp.createExcl chk_cur_file]
      ++ rec.map (fun kv => FsOp.writeLine kv.1 kv.2)
      ++ [FsOp.flushFile, FsOp.closeFile],
     { fs3 with cur := some rec })

/-- The operation trace the write protocol is expected to produce for
a starting state fs and a record rec. -/
def chkpt_trace (fs : ChkFS) (rec : List (String × String)) : List FsOp :=
  (if fs.prev1.isSome then [FsOp.rename chk_prev1_file chk_prev2_file] else [])
  ++ (if fs.prev0.isSome then [FsOp.rename chk_prev0_file chk_prev1_file] else [])
  ++ (if fs.cur.isSome then [FsOp.rename chk_cur_file chk_prev0_file] else [])
  ++ [FsOp.createExcl chk_cur_file]
  ++ rec.map (fun kv => FsOp.writeLine kv.1 kv.2)
  ++ [FsOp.flushFile, FsOp.closeFile]

/-- The write protocol never fails (after the rotation the cur slot is
always free, so the exclusive create succeeds), performs exactly the
protocol trace, and shifts every file down one slot. -/
lemma chkpt_rotate_write_spec (fs : ChkFS) (rec : List (String × String)) :
    chkpt_rotate_write fs rec
      = some (chkpt_trace fs rec,
          ⟨some rec, fs.cur, fs.prev0, fs.prev1 <|> fs.prev2⟩) := by
  obtain ⟨c, p0, p1, p2⟩ := fs
  cases c <;> cases p0 <;> cases p1 <;>
    simp [chkpt_rotate_write, chkpt_trace, Option.orElse]

/-- Outcome of one call of the checkpoint function: a fatal internal
error (err with the given code, the process exits), the graceful
signal exit, or a normal return. -/
inductive ChkOutcome where
  | fatal (code : ℕ)
  | exitSignal (code : ℕ)
  | ok

/-- Result of one call of the checkpoint function: the outcome, the
file system afterwards, the checkpoint_alarm counter afterwards, and
the file operations performed. -/
structure ChkResult where
  outcome : ChkOutcome
  fs : ChkFS
  alarm : ℕ
  trace : List FsOp

/-- Embedding of the checkpoint function of the checkpoint module:
the argument firewall (err 87 cases), the rotation and exclusive
write of the record ending in the sentinel, then the signal epilogue:
clear checkpoint_alarm if set, and if checkpoint_and_end is set exit
with the EXIT_SIGNAL status 7.  A failing exclusive create exits with
EXIT_CHKPT_ACCESS = 4. -/
def checkpoint_run (validTest : Bool) (h n i v1 : ℕ) (alarm andEnd : ℕ)
    (fs : ChkFS) (env : ChkEnv) : ChkResult :=
  if h < 1 then ⟨ChkOutcome.fatal 87, fs, alarm, []⟩
  else if n < 2 then ⟨ChkOutcome.fatal 87, fs, alarm, []⟩
  else if validTest ∧ i < 2 then ⟨ChkOutcome.fatal 87, fs, alarm, []⟩
  else if validTest ∧ i > n then ⟨ChkOutcome.fatal 87, fs, alarm, []⟩
  else if validTest ∧ v1 < 3 then ⟨ChkOutcome.fatal 87, fs, alarm, []⟩
  else if ¬ validTest ∧ i ≠ 0 then ⟨ChkOutcome.fatal 87, fs, alarm, []⟩
  else if ¬ validTest ∧ v1 ≠ 0 then ⟨ChkOutcome.fatal 87, fs, alarm, []⟩
  else
    match chkpt_rotate_write fs (chk_record env h n i v1) with
    | none => ⟨ChkOutcome.fatal 4, fs, alarm, []⟩
    | some (tr, fs2) =>
      let alarm2 := if alarm ≠ 0 then 0 else alarm
      if andEnd ≠ 0 then ⟨ChkOutcome.exitSignal 7, fs2, alarm2, tr⟩
      else ⟨ChkOutcome.ok, fs2, alarm2, tr⟩

/-- The key names of a checkpoint record before the sentinel, in
write order. -/
def chk_keys : List String :=
  ["version", "hostname", "cwd", "checkpoint_dir", "pid", "ppid",
   "n", "h", "i", "v1", "beginrun_timestamp", "beginrun_date_time",
   "beginrun_ru_utime", "beginrun_ru_stime", "beginrun_wall_clock",
   "beginrun_ru_maxrss", "beginrun_ru_minflt", "beginrun_ru_majflt",
   "beginrun_ru_inblock", "beginrun_ru_oublock",
   "beginrun_ru_nvcsw", "beginrun_ru_nivcsw", "current_timestamp",
   "current_date_time", "current_ru_utime", "current_ru_stime",
   "current_wall_clock", "current_ru_maxrss", "current_ru_minflt",
   "current_ru_majflt", "current_ru_inblock", "current_ru_oublock",
   "current_ru_nvcsw", "current_ru_nivcsw", "restored_timestamp",
   "restored_date_time", "restored_ru_utime", "restored_ru_stime",
   "restored_wall_clock", "restored_ru_maxrss",
   "restored_ru_minflt", "restored_ru_majflt",
   "restored_ru_inblock", "restored_ru_oublock",
   "restored_ru_nvcsw", "restored_ru_nivcsw", "total_timestamp",
   "total_date_time", "total_ru_utime", "total_ru_stime",
   "total_wall_clock", "total_ru_maxrss", "total_ru_minflt",
   "total_ru_majflt", "total_ru_inblock", "total_ru_oublock",
   "total_ru_nvcsw", "total_ru_nivcsw", "u_term"]

/-- The keys of the record front do not depend on the environment
values. -/
lemma chk_record_front_keys (env : ChkEnv) (h n i v1 : ℕ) :
    (chk_record_front env h n i v1).map Prod.fst = chk_keys := rfl

/-- No record line before the sentinel carries the sentinel key. -/
lemma chk_record_front_no_sentinel (env : ChkEnv) (h n i v1 : ℕ) :
    ∀ kv ∈ chk_record_front env h n i v1, kv.1 ≠ "complete" := by
  intro kv hkv
  have hmem : kv.1 ∈ (chk_record_front env h n i v1).map Prod.fst :=
    List.mem_map_of_mem Prod.fst hkv
  rw [chk_record_front_keys] at hmem
  have hall : ∀ k ∈ chk_keys, k ≠ "complete" := by decide
  exact hall kv.1 hmem

/-! ## C7: the write protocol -/

/-- C7: every checkpoint write performs, in order, the conditional
renames prev-1 to prev-2, prev-0 to prev-1, cur to prev-0, then the
exclusive create of cur, the record lines, a flush and a close (the
trace of chkpt_trace); the slots rotate down one place and cur holds
the full record; the sentinel line complete = "true" is the last
record written, and no earlier line carries the sentinel key, so a
file lacking the sentinel is detectably partial. -/
theorem checkpoint_write_protocol (fs : ChkFS) (env : ChkEnv) (h n i v1 : ℕ) :
    chkpt_rotate_write fs (chk_record env h n i v1)
      = some (chkpt_trace fs (chk_record env h n i v1),
          ⟨some (chk_record env h n i v1), fs.cur, fs.prev0,
           fs.prev1 <|> fs.prev2⟩)
    ∧ (chk_record env h n i v1).getLast? = some ("complete", "true")
    ∧ ∀ kv ∈ (chk_record env h n i v1).dropLast, kv.1 ≠ "complete" := by
  refine ⟨chkpt_rotate_write_spec fs (chk_record env h n i v1), ?_, ?_⟩
  · rw [chk_record, List.getLast?_concat]
  · rw [chk_record, List.dropLast_concat]
    exact chk_record_front_no_sentinel env h n i v1

/-! ## C8: the signal epilogue -/

/-- Characterization of a firewall-passing checkpoint call: the write
happens, the alarm counter comes back cleared, and the outcome is the
graceful signal exit 7 exactly when checkpoint_and_end was set. -/
lemma checkpoint_run_valid (h n i v1 alarm andEnd : ℕ) (fs : ChkFS)
    (env : ChkEnv) (hh : 1 ≤ h) (hn : 2 ≤ n) (hi : 2 ≤ i) (hin : i ≤ n)
    (hv : 3 ≤ v1) :
    checkpoint_run true h n i v1 alarm andEnd fs env
      = ⟨if andEnd ≠ 0 then ChkOutcome.exitSignal 7 else ChkOutcome.ok,
         ⟨some (chk_record env h n i v1), fs.cur, fs.prev0,
          fs.prev1 <|> fs.prev2⟩,
         0,
         chkpt_trace fs (chk_record env h n i v1)⟩ := by
  rw [checkpoint_run]
  rw [if_neg (by omega), if_neg (by omega), if_neg (by simp; omega),
    if_neg (by simp; omega), if_neg (by simp; omega), if_neg (by simp),
    if_neg (by simp)]
  rw [chkpt_rotate_write_spec fs (chk_record env h n i v1)]
  have halarm : (if alarm ≠ 0 then 0 else alarm) = 0 := by
    by_cases ha : alarm = 0 <;> simp [ha]
  by_cases he : andEnd ≠ 0
  · simp only [if_pos he, halarm]
  · simp only [if_neg he, halarm]

/-- The driver main loop with checkpointing (gmprime.c with a
checkpoint directory): each iteration advances the term, polls the
signal counters (given by the schedule, per index), checkpoints when
checkpoint_needed says so, and stops with the exit code of the
checkpoint call when it does not return normally. -/
def driver_loop_chk (h n multiple v1 : ℕ) (sched : ℕ → ℕ × ℕ)
    (env : ChkEnv) (i : ℕ) (u : ℤ) (fs : ChkFS) : ℤ × ChkFS × Option ℕ :=
  if _hlt : i < n then
    let u2 := modStep h n u
    let sg := sched (i + 1)
    if checkpoint_needed sg.1 sg.2 h n (i + 1) multiple then
      let res := checkpoint_run true h n (i + 1) v1 sg.1 sg.2 fs env
      match res.outcome with
      | ChkOutcome.fatal c => (u2, res.fs, some c)
      | ChkOutcome.exitSignal c => (u2, res.fs, some c)
      | ChkOutcome.ok => driver_loop_chk h n multiple v1 sched env (i + 1) u2 res.fs
    else driver_loop_chk h n multiple v1 sched env (i + 1) u2 fs
  else (u, fs, none)
termination_by n - i
decreasing_by all_goals omega

/-- A pending termination request always triggers the checkpoint
predicate. -/
lemma checkpoint_needed_of_and_end (alarm andEnd h n i multiple : ℕ)
    (he : andEnd ≠ 0) :
    checkpoint_needed alarm andEnd h n i multiple = true := by
  rw [checkpoint_needed]
  by_cases ha : alarm ≠ 0
  · rw [if_pos ha]
  · rw [if_neg ha, if_pos he]

/-- C8: a firewall-passing checkpoint call always returns with the
checkpoint_alarm counter cleared to 0 and the record written, and
exits with the signal status 7 exactly when checkpoint_and_end was
nonzero; in the driver loop, when the termination request is pending
at the current iteration, the run stops right there with exit code 7
after this single modular step and the checkpoint write, performing no
further Lucas iterations. -/
theorem checkpoint_signal_epilogue (h n i v1 alarm andEnd multiple : ℕ)
    (fs : ChkFS) (env : ChkEnv) (u : ℤ) (sched : ℕ → ℕ × ℕ)
    (hh : 1 ≤ h) (hn : 2 ≤ n) (hi : 2 ≤ i) (hin : i ≤ n) (hv : 3 ≤ v1) :
    ((checkpoint_run true h n i v1 alarm andEnd fs env).alarm = 0
      ∧ (checkpoint_run true h n i v1 alarm andEnd fs env).fs.cur
          = some (chk_record env h n i v1)
      ∧ (andEnd ≠ 0 → (checkpoint_run true h n i v1 alarm andEnd fs env).outcome
          = ChkOutcome.exitSignal 7)
      ∧ (andEnd = 0 → (checkpoint_run true h n i v1 alarm andEnd fs env).outcome
          = ChkOutcome.ok))
    ∧ (i < n → (sched (i + 1)).2 ≠ 0 →
        driver_loop_chk h n multiple v1 sched env i u fs
          = (modStep h n u,
             (checkpoint_run true h n (i + 1) v1 (sched (i + 1)).1
               (sched (i + 1)).2 fs env).fs,
             some 7)) := by
  constructor
  · rw [checkpoint_run_valid h n i v1 alarm andEnd fs env hh hn hi hin hv]
    refine ⟨rfl, rfl, ?_, ?_⟩
    · intro he
      simp only [if_pos he]
    · intro he
      simp only [if_neg (by omega : ¬ andEnd ≠ 0)]
  · intro hlt he
    rw [driver_loop_chk]
    rw [dif_pos hlt]
    simp only [if_pos (checkpoint_needed_of_and_end _ _ h n (i + 1) multiple he)]
    rw [checkpoint_run_valid h n (i + 1) v1 (sched (i + 1)).1 (sched (i + 1)).2
      fs env hh hn (by omega) (by omega) hv]
    simp only [if_pos he]

/-- C8 witness: the epilogue theorem instantiated at h = 1, n = 3,
i = 2, v1 = 4, alarm = 1, andEnd = 1, with the empty file system, a
constant environment and a schedule that always requests termination. -/
theorem checkpoint_signal_epilogue_witness :
    (1 ≤ (1 : ℕ) ∧ 2 ≤ (3 : ℕ) ∧ 2 ≤ (2 : ℕ) ∧ (2 : ℕ) ≤ 3 ∧ 3 ≤ (4 : ℕ))
    ∧ (((checkpoint_run true 1 3 2 4 1 1 ⟨none, none, none, none⟩
          ⟨"", "", "", "", "", fun _ _ => "", ""⟩).alarm = 0
      ∧ (checkpoint_run true 1 3 2 4 1 1 ⟨none, none, none, none⟩
          ⟨"", "", "", "", "", fun _ _ => "", ""⟩).fs.cur
          = some (chk_record ⟨"", "", "", "", "", fun _ _ => "", ""⟩ 1 3 2 4)
      ∧ ((1 : ℕ) ≠ 0 → (checkpoint_run true 1 3 2 4 1 1 ⟨none, none, none, none⟩
          ⟨"", "", "", "", "", fun _ _ => "", ""⟩).outcome
          = ChkOutcome.exitSignal 7)
      ∧ ((1 : ℕ) = 0 → (checkpoint_run true 1 3 2 4 1 1 ⟨none, none, none, none⟩
          ⟨"", "", "", "", "", fun _ _ => "", ""⟩).outcome
          = ChkOutcome.ok))
    ∧ ((2 : ℕ) < 3 → ((fun _ => ((1 : ℕ), (1 : ℕ))) ((2 : ℕ) + 1)).2 ≠ 0 →
        driver_loop_chk 1 3 0 4 (fun _ => ((1 : ℕ), (1 : ℕ)))
          ⟨"", "", "", "", "", fun _ _ => "", ""⟩ 2 4 ⟨none, none, none, none⟩
          = (modStep 1 3 4,
             (checkpoint_run true 1 3 (2 + 1) 4
               ((fun _ => ((1 : ℕ), (1 : ℕ))) ((2 : ℕ) + 1)).1
               ((fun _ => ((1 : ℕ), (1 : ℕ))) ((2 : ℕ) + 1)).2
               ⟨none, none, none, none⟩
               ⟨"", "", "", "", "", fun _ _ => "", ""⟩).fs,
             some 7))) :=
  ⟨by decide,
   checkpoint_signal_epilogue 1 3 2 4 1 1 0 ⟨none, none, none, none⟩
     ⟨"", "", "", "", "", fun _ _ => "", ""⟩ 4 (fun _ => (1, 1))
     (by decide) (by decide) (by decide) (by decide) (by decide)⟩

/-! ## C3: the trivial prefilter and its checkpoint calls -/

/-- The hard-coded list of very small verified Riesel primes of
gmprime.c (small_h_n, final sentinel entry excluded). -/
def small_h_n : List (ℕ × ℕ) := [(1, 2)]

/-- The hard-coded list of small composites of gmprime.c
(composite_h_n, final sentinel entry excluded). -/
def composite_h_n : List (ℕ × ℕ) := [(1, 1)]

/-- The trivial prefilter of gmprime.c main, run on the normalized
(h, n) before setup: some true means the prime line is printed and
the process exits 0, some false the composite line and exit 1, none
means the test proceeds.  The three checks run in source order: the
small-prime list, the small-composite list, the multiple-of-3 test. -/
def main_prefilter (h n : ℕ) : Option Bool :=
  if (h, n) ∈ small_h_n then some true
  else if (h, n) ∈ composite_h_n then some false
  else if (h % 3 = 1 ∧ n % 2 = 0) ∨ (h % 3 = 2 ∧ n % 2 = 1) then some false
  else none

/-- The checkpoint call gmprime.c main performs in each prefilter
branch when a checkpoint directory was supplied:
checkpoint(checkpoint_dir, false, h, n, n, 0, u), i.e. valid_test
false with i = n and v1 = 0. -/
def prefilter_checkpoint_call (h n alarm andEnd : ℕ) (fs : ChkFS)
    (env : ChkEnv) : ChkResult :=
  checkpoint_run false h n n 0 alarm andEnd fs env

/-- C3 (code bug evidence): the prefilter verdicts themselves are as
claimed, but in all three prefilter cases the checkpoint call aborts
with the internal fatal error 87 before touching any file — for
(1, 2) and the multiple-of-3 case because valid_test is false while
i = n is nonzero, for (1, 1) because n < 2 — so no terminal result
file is ever written and the process exits 87 instead of 0 or 1. -/
theorem prefilter_checkpoint_fatal :
    main_prefilter 1 2 = some true
    ∧ main_prefilter 1 1 = some false
    ∧ main_prefilter 1 4 = some false
    ∧ (∀ alarm andEnd fs env,
        prefilter_checkpoint_call 1 2 alarm andEnd fs env
          = ⟨ChkOutcome.fatal 87, fs, alarm, []⟩)
    ∧ (∀ alarm andEnd fs env,
        prefilter_checkpoint_call 1 1 alarm andEnd fs env
          = ⟨ChkOutcome.fatal 87, fs, alarm, []⟩)
    ∧ (∀ alarm andEnd fs env,
        prefilter_checkpoint_call 1 4 alarm andEnd fs env
          = ⟨ChkOutcome.fatal 87, fs, alarm, []⟩) := by
  refine ⟨by decide, by decide, by decide, ?_, ?_, ?_⟩
  · intro alarm andEnd fs env
    rw [prefilter_checkpoint_call, checkpoint_run]
    rw [if_neg (by omega), if_neg (by omega), if_neg (by simp),
      if_neg (by simp), if_neg (by simp), if_pos (by simp)]
  · intro alarm andEnd fs env
    rw [prefilter_checkpoint_call, checkpoint_run]
    rw [if_neg (by omega), if_pos (by omega)]
  · intro alarm andEnd fs env
    rw [prefilter_checkpoint_call, checkpoint_run]
    rw [if_neg (by omega), if_neg (by omega), if_neg (by simp),
      if_neg (by simp), if_neg (by simp), if_pos (by simp)]

/-! ## C9: the restore path -/

/-- Embedding of restore_checkpoint of the checkpoint module: the
function body is the single call err(88, "restore state from a
checkpoint directory - code not yet written"); it never yields a
restored tuple (h, n, i, v1, U). -/
def restore_checkpoint (checkpoint_dir : String) :
    Except ℕ (ℕ × ℕ × ℕ × ℕ × ℤ) :=
  Except.error 88

/-- C9 (code bug evidence): for every checkpoint directory the
restore routine aborts with the internal fatal error 88, so the
driver can never obtain (h, n, i, v1, U) from it and the restore path
of the spec is not implemented. -/
theorem restore_checkpoint_stub :
    ∀ dir : String, restore_checkpoint dir = Except.error 88
      ∧ ¬ ∃ t, restore_checkpoint dir = Except.ok t := by
  intro dir
  refine ⟨rfl, ?_⟩
  rintro ⟨t, ht⟩
  rw [restore_checkpoint] at ht
  exact absurd ht (by simp)

end Gmprime
